import Mathlib

/-!
Verification development for the kbbi-js dictionary scraper.

The development shallowly embeds the core of the repository:
`lib/parser.js` (class `KBBIParser`), the orchestrator `scrape.js`
(class `KBBIScraper`, method `scrapeWord`) and `kbbi.js` (method `lookup`).

Modelling conventions:
* JavaScript strings are Lean `String`s; the string/regex operations the
  source performs are implemented over `List Char` below, each one named
  after the JS operation it mirrors.
* The cheerio document (the "MarkupDocument" primitive of the design) is
  modelled as a record of the query results the source code asks for:
  each cheerio selector that the code evaluates becomes a field of `Doc`,
  `Heading`, `Li`, ... .  List items are flat lists of tagged text
  segments (plain / grey font / red font / `.entrisButton` / italic),
  which is exactly the granularity at which the extractors inspect them.
* JavaScript exceptions are `Except String`; `null`/absent object keys
  are `Option`.
-/

namespace Kbbi

deriving instance DecidableEq for Except

/-! ### JS string primitives over `List Char` -/

def wsChar (c : Char) : Bool := c.isWhitespace

/-- JS `\w` character class: `[A-Za-z0-9_]`. -/
def isWordChar (c : Char) : Bool := c.isAlphanum || c == '_'

def isDigitChar (c : Char) : Bool := c.isDigit

/-- JS `String.prototype.trim`. -/
def jsTrimL (l : List Char) : List Char :=
  ((l.dropWhile wsChar).reverse.dropWhile wsChar).reverse

def jsTrim (s : String) : String := ⟨jsTrimL s.data⟩

/-- JS `replace(/\s+/g, ' ')` (state: previous char was whitespace). -/
def collapseGo : Bool → List Char → List Char
  | _, [] => []
  | prevWs, c :: cs =>
    if wsChar c then
      if prevWs then collapseGo true cs else ' ' :: collapseGo true cs
    else c :: collapseGo false cs

def jsCollapseWs (s : String) : String := ⟨collapseGo false s.data⟩

def isPrefL : List Char → List Char → Bool
  | [], _ => true
  | _ :: _, [] => false
  | a :: as, b :: bs => a == b && isPrefL as bs

def hasSubL (pat : List Char) : List Char → Bool
  | [] => pat.isEmpty
  | c :: cs => isPrefL pat (c :: cs) || hasSubL pat cs

/-- JS `String.prototype.includes`. -/
def jsIncludes (s pat : String) : Bool := hasSubL pat.data s.data

/-- JS `String.prototype.startsWith`. -/
def jsStartsWith (s pat : String) : Bool := isPrefL pat.data s.data

/-- JS `split(sep)` for a single-character separator; keeps empty pieces. -/
def splitCharL (sep : Char) : List Char → List (List Char)
  | [] => [[]]
  | c :: cs =>
    match splitCharL sep cs with
    | [] => [[c]]
    | h :: t => if c == sep then [] :: h :: t else (c :: h) :: t

def jsSplitChar (sep : Char) (s : String) : List String :=
  (splitCharL sep s.data).map (fun l => ⟨l⟩)

/-- Split at the first occurrence of `sep` (JS `indexOf` + two `substring`s);
`none` when `indexOf` returns `-1`. -/
def splitFirstL (sep : Char) : List Char → Option (List Char × List Char)
  | [] => none
  | c :: cs =>
    if c == sep then some ([], cs)
    else (splitFirstL sep cs).map (fun p => (c :: p.1, p.2))

def jsSplitFirst (sep : Char) (s : String) : Option (String × String) :=
  (splitFirstL sep s.data).map (fun p => (⟨p.1⟩, ⟨p.2⟩))

/-- Split on a character predicate, keeping empty pieces. -/
def splitPredL (p : Char → Bool) : List Char → List (List Char)
  | [] => [[]]
  | c :: cs =>
    match splitPredL p cs with
    | [] => [[c]]
    | h :: t => if p c then [] :: h :: t else (c :: h) :: t

/-- JS `trimmed.split(/\s+/)`: on an already-trimmed string this produces the
whitespace-separated tokens with no empty pieces. -/
def jsWords (s : String) : List String :=
  ((splitPredL wsChar s.data).filter (fun l => !l.isEmpty)).map (fun l => ⟨l⟩)

/-- JS `s.replace(pat, '')` for a literal pattern: removes the first
occurrence only (an empty pattern matches at position 0, deleting nothing). -/
def replaceFirstL (pat : List Char) : List Char → List Char
  | [] => []
  | c :: cs => if isPrefL pat (c :: cs) then (c :: cs).drop pat.length
               else c :: replaceFirstL pat cs

def jsReplaceFirst (s pat : String) : String := ⟨replaceFirstL pat.data s.data⟩

/-- JS `replace(/^\s*:\s*/, '')` (single replacement). -/
def stripLeadColon (s : String) : String :=
  let l1 := s.data.dropWhile wsChar
  match l1 with
  | ':' :: rest => ⟨rest.dropWhile wsChar⟩
  | _ => s

/-- JS `replace(/\s*[;:]\s*$/, '')` (single replacement). -/
def stripTrailPunctL (l : List Char) : List Char :=
  match l.reverse.dropWhile wsChar with
  | c :: rest => if c == ';' || c == ':' then (rest.dropWhile wsChar).reverse else l
  | [] => l

def stripTrailPunct (s : String) : String := ⟨stripTrailPunctL s.data⟩

def dashWsChar (c : Char) : Bool :=
  c == '-' || c == '–' || c == '—' || c == '•' || wsChar c

/-- JS `replace(/^[-–—•\s]+/, '')`. -/
def stripLeadDashes (s : String) : String := ⟨s.data.dropWhile dashWsChar⟩

/-- JS `replace(/^\s*[;:]\s*|\s*[;:]\s*$/, '')`: one replacement, the leading
alternative first, otherwise the trailing one. -/
def cleanupSemiOnce (s : String) : String :=
  match s.data.dropWhile wsChar with
  | c :: rest =>
    if c == ';' || c == ':' then ⟨rest.dropWhile wsChar⟩ else stripTrailPunct s
  | [] => stripTrailPunct s

/-- JS `replace(/\[(.*?)\]/g, '$1')`: state `some buf` = inside an open
bracket with reversed content `buf`; an unclosed `[` is emitted literally. -/
def bracketGo : Option (List Char) → List Char → List Char
  | none, [] => []
  | some buf, [] => '[' :: buf.reverse
  | none, c :: cs => if c == '[' then bracketGo (some []) cs else c :: bracketGo none cs
  | some buf, c :: cs =>
    if c == ']' then buf.reverse ++ bracketGo none cs else bracketGo (some (c :: buf)) cs

def jsBracketStrip (s : String) : String := ⟨bracketGo none s.data⟩

/-- Tag stripper for JS `replace(/<[^>]*>/g, rep)` where `rep` is `' '` or
`''`; state `some buf` = inside an open tag, an unclosed `<` stays literal. -/
def stripTagsGo (rep : Option Char) : Option (List Char) → List Char → List Char
  | none, [] => []
  | some buf, [] => '<' :: buf.reverse
  | none, c :: cs =>
    if c == '<' then stripTagsGo rep (some []) cs else c :: stripTagsGo rep none cs
  | some buf, c :: cs =>
    if c == '>' then
      match rep with
      | some r => r :: stripTagsGo rep none cs
      | none => stripTagsGo rep none cs
    else stripTagsGo rep (some (c :: buf)) cs

def jsStripTagsSpace (s : String) : String := ⟨stripTagsGo (some ' ') none s.data⟩

def jsStripTagsEmpty (s : String) : String := ⟨stripTagsGo none none s.data⟩

/-- Superscript digits other than `¹` in the name-cleaning regex. -/
def supDigitOther (c : Char) : Bool :=
  c == '²' || c == '³' || c == '⁴' || c == '⁵' || c == '⁶' ||
  c == '⁷' || c == '⁸' || c == '⁹' || c == '⁰'

/-- JS `replace(/\s*¹|²|...|⁰/g, '')`: the `\s*` binds only to
the `¹` alternative.  `wsbuf` holds a pending (reversed) whitespace run. -/
def stripSupersGo (wsbuf : List Char) : List Char → List Char
  | [] => wsbuf.reverse
  | c :: cs =>
    if wsChar c then stripSupersGo (c :: wsbuf) cs
    else if c == '¹' then stripSupersGo [] cs
    else if supDigitOther c then wsbuf.reverse ++ stripSupersGo [] cs
    else wsbuf.reverse ++ c :: stripSupersGo [] cs

def stripSupers (s : String) : String := ⟨stripSupersGo [] s.data⟩

/-- `Utils.toSuperscript` / `KBBIParser.toSuperscript`: per-character digit map. -/
def supOf (c : Char) : Char :=
  if c == '0' then '⁰' else if c == '1' then '¹' else if c == '2' then '²'
  else if c == '3' then '³' else if c == '4' then '⁴' else if c == '5' then '⁵'
  else if c == '6' then '⁶' else if c == '7' then '⁷' else if c == '8' then '⁸'
  else if c == '9' then '⁹' else c

def toSup (s : String) : String := ⟨s.data.map supOf⟩

/-- Character class `[¹²³⁴-⁾]` of the root-word
digit-repair regex (note: `⁰` = U+2070 is not in it). -/
def supClassChar (c : Char) : Bool :=
  c == '¹' || c == '²' || c == '³' || (0x2074 ≤ c.toNat && c.toNat ≤ 0x207E)

/-- JS `replace(/(\w+)\d+([¹²³⁴-⁾]+)/, '$1$2')`:
with greedy `\w+` and minimal backtracking this deletes exactly one digit
that sits between a word character and a superscript character, at the
leftmost such position. -/
def digitRepairL : List Char → List Char
  | a :: b :: c :: rest =>
    if isWordChar a && isDigitChar b && supClassChar c then a :: c :: rest
    else a :: digitRepairL (b :: c :: rest)
  | l => l

def digitRepair (s : String) : String := ⟨digitRepairL s.data⟩

/-- JS `parseInt` on a nonempty digit string. -/
def parseNatL (l : List Char) : Nat := l.foldl (fun n c => n * 10 + (c.toNat - 48)) 0

def natDigitChar (n : Nat) : Char := Char.ofNat (48 + n % 10)

def natToStrGo : Nat → Nat → List Char → List Char
  | 0, _, acc => acc
  | fuel + 1, n, acc =>
    if n < 10 then natDigitChar n :: acc
    else natToStrGo fuel (n / 10) (natDigitChar (n % 10) :: acc)

/-- JS `Number.prototype.toString` for naturals. -/
def natToStr (n : Nat) : String := ⟨natToStrGo (n + 1) n []⟩

/-- JS `href.match(/eid=(\d+)/)`: first `eid=` followed by at least one digit. -/
def findEidL : List Char → Option (List Char)
  | [] => none
  | c :: rest =>
    if isPrefL "eid=".data (c :: rest) then
      let digits := ((c :: rest).drop 4).takeWhile isDigitChar
      if digits.isEmpty then findEidL rest else some digits
    else findEidL rest

def findEid (s : String) : Option String := (findEidL s.data).map (fun l => ⟨l⟩)

/-- JS `href.match(/\/(\d+)/)`: first `/` followed by at least one digit. -/
def findSlashNumL : List Char → Option (List Char)
  | [] => none
  | c :: rest =>
    if c == '/' then
      let digits := rest.takeWhile isDigitChar
      if digits.isEmpty then findSlashNumL rest else some digits
    else findSlashNumL rest

def findSlashNum (s : String) : Option String := (findSlashNumL s.data).map (fun l => ⟨l⟩)

/-- The alternation of `/\b(n|v|a|adv|num|p|pron)\b/` in source order. -/
def classCodes : List String := ["n", "v", "a", "adv", "num", "p", "pron"]

def boundaryAfter (l : List Char) : Bool :=
  match l with
  | [] => true
  | c :: _ => !isWordChar c

def tryCode (l : List Char) (code : String) : Bool :=
  isPrefL code.data l && boundaryAfter (l.drop code.data.length)

/-- JS `text.match(/\b(n|v|a|adv|num|p|pron)\b/)`: scan left to right, trying
the alternatives in order at each word boundary. -/
def findClassGo : Option Char → List Char → Option String
  | _, [] => none
  | prev, c :: cs =>
    let bBefore := match prev with
      | none => true
      | some p => !isWordChar p
    if bBefore then
      match classCodes.find? (tryCode (c :: cs)) with
      | some code => some code
      | none => findClassGo (some c) cs
    else findClassGo (some c) cs

def findClassToken (s : String) : Option String := findClassGo none s.data

/-- JS `value.match(/^(\w+)\s+\((.*?)\)$/)`: word chars, whitespace, then a
parenthesised remainder whose closing `)` is the final character. -/
def matchKelasSingle (s : String) : Option (String × String) :=
  let l := s.data
  let w := l.takeWhile isWordChar
  if w.isEmpty then none
  else
    let r1 := l.drop w.length
    let sp := r1.takeWhile wsChar
    if sp.isEmpty then none
    else
      match r1.drop sp.length with
      | '(' :: rest =>
        match rest.reverse with
        | ')' :: innerRev => some (⟨w⟩, ⟨innerRev.reverse⟩)
        | _ => none
      | _ => none

def eidTailOk (l : List Char) : Bool :=
  let r := l.dropWhile wsChar
  let d := r.takeWhile isDigitChar
  !d.isEmpty && (match r.drop d.length with
    | ')' :: _ => true
    | _ => false)

/-- JS `value.match(/(.+?)\s*\(Eid:\s*(\d+)\)/)`: earliest `(Eid:` (with at
least one character before it) whose tail is `\s*\d+\)`; group 1 is the text
before it.  (`.` does not match a newline; values here are single lines.) -/
def matchIndukGo (acc : List Char) : List Char → Option (List Char)
  | [] => none
  | c :: cs =>
    if !acc.isEmpty && isPrefL "(Eid:".data (c :: cs) && eidTailOk ((c :: cs).drop 5) then
      some acc.reverse
    else matchIndukGo (c :: acc) cs

/-- `Induk Kata` row handling: the match's group 1 trimmed, else the raw value. -/
def parseInduk (value : String) : String :=
  match matchIndukGo [] value.data with
  | some g1 => jsTrim ⟨g1⟩
  | none => value

/-- JS `text.match(/Contoh #(\d+)-(\d+)/)` with `parseInt` on both groups. -/
def matchContohGo : List Char → Option (Nat × Nat)
  | [] => none
  | c :: rest =>
    if isPrefL "Contoh #".data (c :: rest) then
      let after := (c :: rest).drop 8
      let d1 := after.takeWhile isDigitChar
      if d1.isEmpty then matchContohGo rest
      else
        match after.drop d1.length with
        | '-' :: r2 =>
          let d2 := r2.takeWhile isDigitChar
          if d2.isEmpty then matchContohGo rest
          else some (parseNatL d1, parseNatL d2)
        | _ => matchContohGo rest
    else matchContohGo rest

def matchContoh (s : String) : Option (Nat × Nat) := matchContohGo s.data

/-- Split at the first occurrence of a literal substring pattern. -/
def splitSubL (pat : List Char) : List Char → Option (List Char × List Char)
  | [] => if pat.isEmpty then some ([], []) else none
  | c :: cs =>
    if isPrefL pat (c :: cs) then some ([], (c :: cs).drop pat.length)
    else (splitSubL pat cs).map (fun p => (c :: p.1, p.2))

/-- JS `match(/<i[^>]*color:darkred[^>]*>(.*?)<\/i>/i)` over the etymology
bracket interior (modelled case-sensitively for the lowercase markup the
site serves): first `<i ...>` tag whose attribute text contains
`color:darkred`, capturing up to the first `</i>`. -/
def findDarkredGo : List Char → Option (List Char)
  | [] => none
  | c :: rest =>
    if isPrefL "<i".data (c :: rest) then
      match splitFirstL '>' ((c :: rest).drop 2) with
      | some (tag, r2) =>
        if hasSubL "color:darkred".data tag then
          match splitSubL "</i>".data r2 with
          | some (inner, _) => some inner
          | none => findDarkredGo rest
        else findDarkredGo rest
      | none => findDarkredGo rest
    else findDarkredGo rest

def findDarkred (s : String) : Option String := (findDarkredGo s.data).map (fun l => ⟨l⟩)

/-- `i`-indexed enumeration used to mirror cheerio `.each((i, el) => ...)`. -/
def enumFrom (n : Nat) : List α → List (Nat × α)
  | [] => []
  | a :: as => (n, a) :: enumFrom (n + 1) as

/-- In-place update at an index (JS `arr[i] = ...` / mutation of `arr[i]`). -/
def updateAt (f : α → α) : Nat → List α → List α
  | _, [] => []
  | 0, a :: as => f a :: as
  | n + 1, a :: as => a :: updateAt f n as

/-- Mutation of the last element (JS `arr[arr.length - 1]`). -/
def updateLast (f : α → α) : List α → List α
  | [] => []
  | [a] => [f a]
  | a :: b :: rest => a :: updateLast f (b :: rest)

def concatS (l : List String) : String := l.foldl (fun a s => a ++ s) ""

/-! ### Data model (§3 of the design: Entry, Meaning, WordClass, Example) -/

structure WordClass where
  kode : String
  nama : String
deriving DecidableEq

/-- JS stores `nomor` of a Meaning sometimes as a string (`(i+1).toString()`,
`'1'`) and sometimes as a number (`i + 1`); the sum type records which. -/
inductive NomorV
  | str (s : String)
  | num (n : Nat)
deriving DecidableEq

structure Contoh where
  nomor : Nat
  teks : String
deriving DecidableEq

/-- A Meaning object; `nomor`/`kiasan` are `none` when the producing code
path does not put the key on the object at all. -/
structure Meaning where
  nomor : Option NomorV
  kelasKata : List WordClass
  definisi : String
  contoh : List Contoh
  kiasan : Option Bool
deriving DecidableEq

structure Etym where
  text : String
  languages : List String
deriving DecidableEq

structure Related where
  kataTurunan : List String
  gabunganKata : List String
  peribahasa : List String
  idiom : List String
deriving DecidableEq

/-- Entry built by `parseEntryDirectly` (search-results page). -/
structure Entry where
  id : Option String
  nama : String
  nomor : String
  makna : List Meaning
  jenis : Option String
  rootWord : Option String
  etimologi : Option Etym
  terkait : Option Related
deriving DecidableEq

/-- Stub built by `parseEntry` (phase 1 of `scrapeWord`); the JS object always
carries the four keys, `rootWord` possibly with value `null`. -/
structure Stub where
  nama : String
  nomor : String
  id : String
  rootWord : Option String
deriving DecidableEq

/-- Entry assembled by `parseDetailsPage`; every key is only put on the
object when a value for it was found. -/
structure DetailEntry where
  id : Option String
  nama : Option String
  nomor : Option String
  jenis : Option String
  rootWord : Option String
  makna : Option (List Meaning)
deriving DecidableEq

/-- Shape of `{...entry, ...details}` in `scrapeWord` phase 2. -/
structure MergedEntry where
  nama : String
  nomor : String
  id : String
  rootWord : Option String
  jenis : Option String
  makna : Option (List Meaning)
deriving DecidableEq

/-! ### Document surface model

Each field holds the result of one cheerio query the source evaluates.
A list item (`li`) is a flat list of tagged text segments: the extractors
only distinguish plain text, `font[color=grey]` (examples),
`font[color=red]`/`[color=red]` (word classes, with their `span[title]`
children), `.entrisButton`, and `i` elements. `text()` of the item is the
concatenation of all segment texts. -/

structure TSpan where
  text : String
  title : String
deriving DecidableEq

inductive Seg
  | plain (t : String)
  | grey (t : String)
  | red (t : String) (spans : List TSpan)
  | button (t : String)
  | italic (t : String)
deriving DecidableEq

structure Li where
  segs : List Seg
deriving DecidableEq

/-- An `ol`/`ul` list element with its `li` items. -/
structure MList where
  isOl : Bool
  items : List Li
deriving DecidableEq

/-- A sibling element in `nextUntil('h2, h4')` (for the plain-text fallback):
either a `br` or another element with its text.  (The source also skips
`is('h4')` elements, but `nextUntil('h2, h4')` can never contain one, so the
model needs no `h4` case.) -/
inductive ContentEl
  | br
  | el (text : String)
deriving DecidableEq

/-- A raw DOM sibling node of the heading (`nextSibling` walk): a text node,
an `h2` element, or any other element. -/
inductive SibNode
  | textNode (t : String)
  | h2El
  | otherEl
deriving DecidableEq

/-- A `.rootword` link (`a`): its `text()` and its `sup` child's text when
that child exists.  Covers both existence checks of the source (span present
and link present): `none` when either is missing. -/
structure RwLink where
  text : String
  supText : Option String
deriving DecidableEq

/-- An `h4` section following the heading, with the link texts of the `ul`
immediately next to it (`[]` when there is none). -/
structure RelSec where
  text : String
  ulLinks : List String
deriving DecidableEq

/-- One entry heading (`h2[style*="margin-bottom:3px"]`) with the query
results the extractors ask of it.
* `italics`/`sups`: texts of all `i`/`sup` descendants (cheerio `text()`
  concatenates them).
* `listsUntil`: the `ol`/`ul` elements among `nextUntil('h2, h4')`, in
  document order.
* `contentEls`: all elements of `nextUntil('h2, h4')` (used only by the
  plain-text fallback, which runs when `listsUntil` is empty).
* `olsAfter`/`parentOls`: `nextAll('ol')` and `parent().find('ol')` item
  lists. `containerParas`: texts of `parent().parent()` `p`/`div` elements
  whose nearest preceding `h2` is this heading. -/
structure Heading where
  italics : List String
  ownText : String
  sups : List String
  editHref : Option String
  viewHref : Option String
  parentEntriHref : Option String
  entryTypeSmall : Option String
  rootwordLink : Option RwLink
  listsUntil : List MList
  contentEls : List ContentEl
  relSections : List RelSec
  olsAfter : List (List Li)
  parentOls : List (List Li)
  containerParas : List String
  rawSiblings : List SibNode
deriving DecidableEq

/-- A `.row` of the details page: `.col-md-2 b` text and `.col-md-10` text. -/
structure Row where
  label : String
  value : String
deriving DecidableEq

/-- An `h4` of the details page together with its `nextUntil('h4', '.row')`
rows. -/
structure H4Sec where
  text : String
  rows : List Row
deriving DecidableEq

/-- The whole document.
* `entryHeadings`: `h2[style*="margin-bottom:3px"]`.
* `hasNotFoundMsg`: a `div` containing `Entri tidak ditemukan` exists.
* `isDetailsPage`: `.page-header h2` containing `Detail Data` exists.
* `etymologyBracket`: group 1 of `/Etimologi:<\\/b>\\s*\\[(.*?)\\]/i` over the
  raw HTML (a document-surface primitive, as the regex runs on markup).
* `titleRootword`: `.page-header h2 .rootword a`. `firstH2`: `$('h2').first()`.
* `kataDasarLinks`: link texts of `h4:contains("Kata Dasar") + ul`. -/
structure Doc where
  entryHeadings : List Heading
  hasNotFoundMsg : Bool
  isDetailsPage : Bool
  rows : List Row
  contohH4s : List H4Sec
  titleRootword : Option RwLink
  firstH2 : Option Heading
  kataDasarLinks : List String
  etymologyBracket : Option String
  colMd3Texts : List String
  daftarSelarasLinks : List String
  hasKeluarAnchor : Bool
  hasKeluarButton : Bool
deriving DecidableEq

/-! ### Field extractors (`KBBIParser`) -/

/-- `extractText`: prefer the `i` descendants' text, else own text with child
elements removed; both trimmed. -/
def extractText (h : Heading) : String :=
  if !h.italics.isEmpty then jsTrim (concatS h.italics) else jsTrim h.ownText

/-- `extractNumber`: text of the `sup` descendants, else `''`. -/
def extractNumber (h : Heading) : String :=
  if !h.sups.isEmpty then jsTrim (concatS h.sups) else ""

/-- `extractId`: edit link's `eid=(\d+)`, else view link's `\/(\d+)`, else a
parent-container `entri` link's `\/(\d+)`, else null.  A link whose href does
not match falls through to the next strategy. -/
def extractId (h : Heading) : Option String :=
  match h.editHref.bind findEid with
  | some v => some v
  | none =>
    match h.viewHref.bind findSlashNum with
    | some v => some v
    | none => h.parentEntriHref.bind findSlashNum

/-- `extractEntryType`: first following `small[style*=color:saddlebrown]`,
tag-stripped and trimmed; null when absent. -/
def extractEntryType (h : Heading) : Option String :=
  h.entryTypeSmall.map (fun raw => jsTrim (jsStripTagsEmpty raw))

/-- `extractRootWord`: page-level `Kata Dasar` links first (trimmed, nonempty
ones), else the heading's `.rootword a` with superscript reconstruction and
the stray-digit repair; the first collected word, else null. -/
def extractRootWord (doc : Doc) (h : Heading) : Option String :=
  let pageWords := doc.kataDasarLinks.filterMap (fun t =>
    let r := jsTrim t
    if r ≠ "" then some r else none)
  match pageWords with
  | w :: _ => some w
  | [] =>
    match h.rootwordLink with
    | some link =>
      let rootText := jsTrim link.text
      let rootText := match link.supText with
        | some st =>
          let s := jsTrim st
          if s ≠ "" then rootText ++ toSup s else rootText
        | none => rootText
      some (digitRepair rootText)
    | none => none

/-- The fixed code table of `extractWordClasses` method 2 (`switch` with
`default: name = ''`). -/
def mapWordClassCode (code : String) : String :=
  if code = "n" then "Nomina" else if code = "v" then "Verba"
  else if code = "a" then "Adjektiva" else if code = "adv" then "Adverbia"
  else if code = "num" then "Numeralia" else if code = "p" then "Partikel"
  else if code = "pron" then "Pronomina" else if code = "ki" then "kiasan"
  else if code = "Jp" then "Jepang" else if code = "sing" then "singkatan"
  else if code = "Komp" then "Komputer" else if code = "Prw" then "Pariwisata"
  else if code = "Kap" then "Perkapalan" else ""

/-- JS `title.split(':')[0]`. -/
def headBeforeColon (t : String) : String :=
  match jsSplitFirst ':' t with
  | some (before, _) => before
  | none => t

/-- Method 1 of `extractWordClasses`: titled spans inside red elements. -/
def wcFromSpans (spans : List TSpan) : List WordClass :=
  spans.filterMap (fun sp =>
    let code := jsTrim sp.text
    if code ≠ "" ∧ sp.title ≠ "" then
      some ⟨code, jsTrim (headBeforeColon sp.title)⟩
    else none)

def redSpans : Seg → List TSpan
  | .red _ spans => spans
  | _ => []

def segText : Seg → String
  | .plain t => t
  | .grey t => t
  | .red t _ => t
  | .button t => t
  | .italic t => t

/-- cheerio `$li.text()`. -/
def liText (li : Li) : String := li.segs.foldl (fun a s => a ++ segText s) ""

/-- One whitespace-split token of a red element's text in method 2:
punctuation-only tokens are dropped; the name comes from the element's first
titled span when one exists, else from the fixed table. -/
def method2Token (spans : List TSpan) (part : String) : Option WordClass :=
  let cleanPart := jsTrim part
  if cleanPart ≠ "" ∧ cleanPart ≠ "," ∧ cleanPart ≠ ";" ∧ cleanPart ≠ "(" ∧ cleanPart ≠ ")" then
    let name := match spans.head? with
      | some sp => if sp.title ≠ "" then jsTrim (headBeforeColon sp.title) else ""
      | none => mapWordClassCode cleanPart
    some ⟨cleanPart, name⟩
  else none

/-- Method 2 of `extractWordClasses` for one segment: a red element's trimmed
text split on whitespace, each token mapped through `method2Token`. -/
def wcMethod2Step (acc : List WordClass) (s : Seg) : List WordClass :=
  match s with
  | .red t spans =>
    if jsTrim t ≠ "" then acc ++ (jsWords (jsTrim t)).filterMap (method2Token spans)
    else acc
  | _ => acc

/-- `extractWordClasses`: method 1 (titled spans of red elements), and when
that finds nothing, method 2 (red element texts split on whitespace).  The
source's nested-red-element guard is vacuous in this flat segment model. -/
def extractWordClasses (li : Li) : List WordClass :=
  let m1 := li.segs.foldl (fun acc s => acc ++ wcFromSpans (redSpans s)) []
  if m1 ≠ [] then m1 else li.segs.foldl wcMethod2Step []

/-- `extractDefinition`: text with grey/red/`.entrisButton` elements removed
(italic text stays), whitespace collapsed, a leading colon, a trailing
semicolon/colon and leading dash/bullet run stripped; empty → sentinel. -/
def orSentinel (d : String) : String := if d = "" then "Tidak tersedia" else d

def extractDefinition (li : Li) : String :=
  let kept := li.segs.foldl (fun a s =>
    match s with
    | .plain t => a ++ t
    | .italic t => a ++ t
    | _ => a) ""
  orSentinel (stripLeadDashes (stripTrailPunct (stripLeadColon (jsCollapseWs (jsTrim kept)))))

/-- Examples after the first colon, split on semicolons (index counts all
split pieces, the JS `forEach` index). -/
def semiSplitExamples (examplesText : String) : List Contoh :=
  (enumFrom 0 (jsSplitChar ';' examplesText)).filterMap (fun p =>
    let e := jsTrim p.2
    if e ≠ "" then some ⟨p.1 + 1, e⟩ else none)

/-- `extractExamples`: grey font elements one Example each (the index counts
all grey elements), else the item text after its first colon split on
semicolons. -/
def extractExamples (li : Li) : List Contoh :=
  let greys := li.segs.filterMap (fun s =>
    match s with
    | .grey t => some t
    | _ => none)
  if greys ≠ [] then
    (enumFrom 0 greys).filterMap (fun p =>
      let t := jsTrim p.2
      if t ≠ "" then some ⟨p.1 + 1, t⟩ else none)
  else
    let text := jsTrim (liText li)
    match jsSplitFirst ':' text with
    | some (_, after) =>
      let examplesText := jsTrim after
      if examplesText ≠ "" then semiSplitExamples examplesText else []
    | none => []

/-- `extractEtymology`: over the matched bracket interior, a darkred italic
as the single language, tag-stripped text re-wrapped in brackets. -/
def extractEtymology (doc : Doc) : Option Etym :=
  match doc.etymologyBracket with
  | none => none
  | some g =>
    if g = "" then none
    else
      let content := jsTrim g
      let languages := match findDarkred content with
        | some cap => if cap ≠ "" then [jsTrim cap] else []
        | none => []
      let cleanText := jsTrim (jsCollapseWs (jsStripTagsSpace content))
      some ⟨"[" ++ cleanText ++ "]", languages⟩

/-- Push the links of one related-words section, deduplicated by exact text. -/
def relAdd (l : List String) (texts : List String) : List String :=
  texts.foldl (fun acc t =>
    let x := jsTrim t
    if x ≠ "" ∧ ¬ acc.contains x then acc ++ [x] else acc) l

/-- `extractRelated`: classify each following `h4` by its text and collect the
next `ul`'s link texts; null when all four categories end up empty. -/
def extractRelated (h : Heading) : Option Related :=
  let r := h.relSections.foldl (fun (r : Related) sec =>
    let ht := jsTrim sec.text
    if jsIncludes ht "Kata Turunan" then {r with kataTurunan := relAdd r.kataTurunan sec.ulLinks}
    else if jsIncludes ht "Gabungan Kata" then {r with gabunganKata := relAdd r.gabunganKata sec.ulLinks}
    else if jsIncludes ht "Peribahasa" then {r with peribahasa := relAdd r.peribahasa sec.ulLinks}
    else if jsIncludes ht "Idiom" then {r with idiom := relAdd r.idiom sec.ulLinks}
    else r) ⟨[], [], [], []⟩
  if r.kataTurunan ≠ [] ∨ r.gabunganKata ≠ [] ∨ r.peribahasa ≠ [] ∨ r.idiom ≠ [] then some r
  else none

/-! ### Meaning extraction (`EntryAssembler`) -/

/-- The shared `children('li').each((i, li) => ...)` body of
`parseEntryDirectly` and `extractMeaningsDirectly`: skip `Usulkan makna baru`
items, `nomor` is the string of the child index + 1. -/
def listItemMeaning (p : Nat × Li) : Option Meaning :=
  let li := p.2
  if jsIncludes (liText li) "Usulkan makna baru" then none
  else
    let wordClasses := extractWordClasses li
    let definition := extractDefinition li
    let examples := extractExamples li
    if definition ≠ "" then
      some ⟨some (.str (natToStr (p.1 + 1))), wordClasses, definition, examples, none⟩
    else none

def listItemMeanings (items : List Li) : List Meaning :=
  (enumFrom 0 items).filterMap listItemMeaning

/-- The 7-entry `switch` of the plain-text fallback in
`extractMeaningsDirectly`. -/
def mapSmallCode (code : String) : String :=
  if code = "n" then "Nomina" else if code = "v" then "Verba"
  else if code = "a" then "Adjektiva" else if code = "adv" then "Adverbia"
  else if code = "num" then "Numeralia" else if code = "p" then "Partikel"
  else if code = "pron" then "Pronomina" else ""

/-- `extractMeaningsDirectly`: first `ol` (else first `ul`) between the
heading and the next heading; when there is no list, concatenate the sibling
texts, detect one leading word-class token, strip it, and emit one Meaning. -/
def extractMeaningsDirectly (h : Heading) : List Meaning :=
  let olFirst : Option MList := (h.listsUntil.filter (fun l => l.isOl)).head?
  let listFirst : Option MList := match olFirst with
    | some l => some l
    | none => (h.listsUntil.filter (fun l => !l.isOl)).head?
  match listFirst with
  | some l => listItemMeanings l.items
  | none =>
    if h.contentEls ≠ [] then
      let text := jsTrim (h.contentEls.foldl (fun (a : String) (e : ContentEl) =>
        match e with
        | .br => a
        | .el t => a ++ jsTrim t ++ " ") "")
      if text ≠ "" ∧ ¬ jsIncludes text "Usulkan makna baru" then
        match findClassToken text with
        | some code =>
          let name := mapSmallCode code
          let wordClasses := if name ≠ "" then [(⟨code, name⟩ : WordClass)] else []
          let text2 := jsTrim (jsReplaceFirst text code)
          [⟨some (.str "1"), wordClasses, text2, [], none⟩]
        | none => [⟨some (.str "1"), [], text, [], none⟩]
      else []
    else []

/-- `parseEntryDirectly`: null when the extracted name is empty; otherwise an
Entry with superscript digits stripped from the name, the first
`nextUntil('h2, h4', 'ol, ul')` list's meanings (else the fallback cascade),
and the optional jenis / rootWord / etimologi / terkait fields. -/
def parseEntryDirectly (doc : Doc) (h : Heading) : Option Entry :=
  let entryName := jsTrim (extractText h)
  if entryName = "" then none
  else
    let entryId := extractId h
    let homonymNumber := extractNumber h
    let jenis := match extractEntryType h with
      | some t => if t ≠ "" then some t else none
      | none => none
    let rootWord := match extractRootWord doc h with
      | some r => if r ≠ "" then some r else none
      | none => none
    let makna := match h.listsUntil.head? with
      | some l => listItemMeanings l.items
      | none =>
        let ms := extractMeaningsDirectly h
        if ms ≠ [] then ms else []
    some { id := entryId, nama := stripSupers entryName, nomor := homonymNumber,
           makna := makna, jenis := jenis, rootWord := rootWord,
           etimologi := extractEtymology doc, terkait := extractRelated h }

def liHasKiItalic (li : Li) : Bool :=
  li.segs.any (fun s =>
    match s with
    | .italic t => jsIncludes t "ki"
    | _ => false)

/-- The `$ol.find('li').each((i, li) => ...)` body of
`extractCompoundWordMeanings`: red texts string-replaced out of the item
text, one `[;:]` cleanup, colon split into definition/examples, `nomor` is
the numeric child index + 1, `kiasan` from an italic containing `ki`. -/
def compoundDefRaw (li : Li) : String :=
  jsTrim (cleanupSemiOnce (li.segs.foldl (fun acc s =>
    match s with
    | .red t _ => jsReplaceFirst acc t
    | _ => acc) (jsTrim (liText li))))

/-- The colon split of the cleaned item text: definition text and the
semicolon-split examples after the first colon (`[]` when there is no colon
or nothing after it). -/
def compoundSplit (li : Li) : String × List Contoh :=
  match jsSplitFirst ':' (compoundDefRaw li) with
  | some (before, after) =>
    (jsTrim before, if jsTrim after ≠ "" then semiSplitExamples (jsTrim after) else [])
  | none => (compoundDefRaw li, [])

def compoundItemMeaning (p : Nat × Li) : Option Meaning :=
  if jsIncludes (jsTrim (liText p.2)) "Usulkan makna baru" then none
  else
    if (compoundSplit p.2).1 ≠ "" then
      some ⟨some (.num (p.1 + 1)), extractWordClasses p.2, (compoundSplit p.2).1,
        (compoundSplit p.2).2, some (liHasKiItalic p.2)⟩
    else none

/-- Final fallback of `extractCompoundWordMeanings`: walk the heading's raw
next siblings, stop at an `h2`, take text nodes longer than 5 characters. -/
def textNodeMeanings (acc : List Meaning) : List SibNode → List Meaning
  | [] => acc
  | .h2El :: _ => acc
  | .textNode t :: rest =>
    let x := jsTrim t
    if x ≠ "" ∧ 5 < x.length then
      textNodeMeanings (acc ++ [⟨some (.num (acc.length + 1)), [], x, [], some false⟩]) rest
    else textNodeMeanings acc rest
  | .otherEl :: rest => textNodeMeanings acc rest

/-- The list `extractCompoundWordMeanings` works on: the first `nextAll('ol')`,
else the parent container's first `ol`. -/
def compoundOlItems (h : Heading) : Option (List Li) :=
  match h.olsAfter.head? with
  | some o => some o
  | none => h.parentOls.head?

def compoundListMs (h : Heading) : List Meaning :=
  match compoundOlItems h with
  | some items => (enumFrom 0 items).filterMap compoundItemMeaning
  | none => []

/-- One paragraph of the container fallback: kept when its trimmed text is
longer than 5 characters and lacks the marker; numbered by meanings pushed so
far plus one. -/
def paraStep (acc : List Meaning) (t : String) : List Meaning :=
  let text := jsTrim t
  if text ≠ "" ∧ 5 < text.length ∧ ¬ jsIncludes text "Usulkan makna baru" then
    acc ++ [⟨some (.num (acc.length + 1)), [], text, [], some false⟩]
  else acc

/-- `extractCompoundWordMeanings`: the first `nextAll('ol')` (else the parent
container's first `ol`) item meanings; else one Meaning per container
paragraph longer than 5 chars; else the raw text-node walk. -/
def extractCompoundWordMeanings (h : Heading) : List Meaning :=
  if compoundListMs h ≠ [] then compoundListMs h
  else if h.containerParas.foldl paraStep [] ≠ [] then h.containerParas.foldl paraStep []
  else textNodeMeanings [] h.rawSiblings

/-- `parseEntry` (scraping stub): null when `extractId` finds nothing
(`if (!id) return null` — the falsy check also covers an empty string). -/
def parseEntry (doc : Doc) (h : Heading) : Option Stub :=
  let nama := extractText h
  let nomor := extractNumber h
  let id := extractId h
  let rootWord := extractRootWord doc h
  match id with
  | some i => if i = "" then none else some ⟨nama, nomor, i, rootWord⟩
  | none => none

/-- `parseMirip`: nonempty trimmed texts of `.col-md-3` elements, then of
`ul.daftar-selaras li a` links, in document order, duplicates kept. -/
def parseMirip (doc : Doc) : List String :=
  (doc.colMd3Texts.filterMap (fun t =>
    let r := jsTrim t
    if r ≠ "" then some r else none)) ++
  (doc.daftarSelarasLinks.filterMap (fun t =>
    let r := jsTrim t
    if r ≠ "" then some r else none))

/-- `checkAuthentication`: a `Keluar` anchor or button exists. -/
def checkAuthentication (doc : Doc) : Bool := doc.hasKeluarAnchor || doc.hasKeluarButton

/-! ### `parseDetailsPage` (`DetailPageAssembler`) -/

def emptyDetail : DetailEntry := ⟨none, none, none, none, none, none⟩

/-- `Kelas Kata` row value: single `code (name)` form, else comma-split with
per-piece `code (name)` parse, unmatched pieces becoming `{kode, nama:''}`. -/
def parseKelasValue (value : String) : List WordClass :=
  match matchKelasSingle value with
  | some (kode, nama) => [⟨kode, nama⟩]
  | none =>
    (jsSplitChar ',' value).map (fun cls =>
      match matchKelasSingle (jsTrim cls) with
      | some (kode, nama) => ⟨kode, nama⟩
      | none => ⟨jsTrim cls, ""⟩)

/-- One `.row` of the details page (`switch (label)`); rows with empty or
placeholder values are skipped. -/
def applyRow (r : DetailEntry) (row : Row) : DetailEntry :=
  let label := jsTrim row.label
  let value := jsTrim row.value
  if value = "" ∨ value = "(Tidak tersedia)" then r
  else if label = "Eid" then {r with id := some value}
  else if label = "Entri" then {r with nama := some value}
  else if label = "Id Homonim" then {r with nomor := some value}
  else if label = "Jenis Entri" then {r with jenis := some value}
  else if label = "Induk Kata" then {r with rootWord := some (parseInduk value)}
  else if label = "Makna" then
    {r with makna := some ((r.makna.getD []) ++ [⟨none, [], value, [], none⟩])}
  else if label = "Kelas Kata" then
    match r.makna with
    | some l =>
      if l ≠ [] then
        {r with makna := some (updateLast (fun m => {m with kelasKata := parseKelasValue value}) l)}
      else r
    | none => r
  else if label = "Contoh" then
    match r.makna with
    | some l =>
      if l ≠ [] then
        {r with makna := some (updateLast (fun m =>
          {m with contoh := m.contoh ++ [⟨m.contoh.length + 1, value⟩]}) l)}
      else r
    | none => r
  else r

/-- The value of the first following row labelled `Contoh` (the `.each` loop
that stops via `return false`); `''` when no such row exists. -/
def h4ExampleText (sec : H4Sec) : String :=
  match sec.rows.find? (fun row => jsTrim row.label = "Contoh") with
  | some row => jsTrim row.value
  | none => ""

/-- Replace the Example with ordinal `eNum` by the cleaned text, else append
it. -/
def h4UpdateMeaning (cleaned : String) (eNum : Nat) (meaning : Meaning) : Meaning :=
  match meaning.contoh.findIdx? (fun ex => ex.nomor = eNum) with
  | some idx =>
    {meaning with contoh := updateAt (fun ex => {ex with teks := cleaned}) idx meaning.contoh}
  | none => {meaning with contoh := meaning.contoh ++ [⟨eNum, cleaned⟩]}

/-- One `Contoh #M-N` header: skipped when the regex fails, `makna` is absent
or `M` exceeds its length; with `M = 0` the JS indexes `result.makna[-1]`
(`undefined`) and dereferencing `.contoh` raises a TypeError.  Otherwise the
first following `Contoh` row's value (bracket glosses unwrapped) replaces the
Example with ordinal `N` of Meaning `M` or is appended. -/
def applyH4 (r : DetailEntry) (sec : H4Sec) : Except String DetailEntry :=
  match matchContoh sec.text with
  | none => .ok r
  | some (mNum, eNum) =>
    match r.makna with
    | none => .ok r
    | some l =>
      if l.length < mNum then .ok r
      else if mNum = 0 then
        .error "TypeError: Cannot read properties of undefined (reading contoh)"
      else
        if h4ExampleText sec ≠ "" ∧ h4ExampleText sec ≠ "(Tidak tersedia)" then
          .ok {r with makna := some (updateAt
            (h4UpdateMeaning (jsTrim (jsBracketStrip (h4ExampleText sec))) eNum) (mNum - 1) l)}
        else .ok r

def applyH4s (r : DetailEntry) : List H4Sec → Except String DetailEntry
  | [] => .ok r
  | s :: rest =>
    match applyH4 r s with
    | .error e => .error e
    | .ok r2 => applyH4s r2 rest

/-- Title-fallback root word of the details page: link text plus superscript
reconstruction (no emptiness check on the sup text and no digit repair here). -/
def titleRootText (link : RwLink) : String :=
  jsTrim link.text ++ (match link.supText with
    | some st => toSup (jsTrim st)
    | none => "")

/-- JS truthiness of `result.rootWord` (absent key or empty string is falsy). -/
def rootWordFalsy (r : DetailEntry) : Bool :=
  match r.rootWord with
  | none => true
  | some v => v == ""

/-- `!result.makna || length === 0 || (length > 0 && every(m => !m.definisi
|| m.definisi === '→'))`. -/
def maknaIncomplete (r : DetailEntry) : Bool :=
  match r.makna with
  | none => true
  | some l => l.isEmpty || (!l.isEmpty && l.all (fun m => m.definisi == "" || m.definisi == "→"))

/-- Compound-word special handling at the end of `parseDetailsPage`: when the
name has a space and the meanings are missing/placeholder-only, re-run the
compound cascade against `$('h2').first()`.  With no `h2` on the page at all
the JS dereferences `$h2.get(0).nextSibling` (`undefined`) in the final
fallback, raising a TypeError. -/
def compoundFix (doc : Doc) (r : DetailEntry) : Except String DetailEntry :=
  match r.nama with
  | some nm =>
    -- `result.nama && result.nama.includes(' ')`: the key is only ever set to
    -- a nonempty value, and `"".includes(' ')` is false anyway, so the
    -- truthiness conjunct is subsumed by the `includes` test.
    if jsIncludes nm " " ∧ maknaIncomplete r = true then
      match doc.firstH2 with
      | some h =>
        let cm := extractCompoundWordMeanings h
        .ok (if cm ≠ [] then {r with makna := some cm} else r)
      | none => .error "TypeError: Cannot read properties of undefined (reading nextSibling)"
    else .ok r
  | none => .ok r

/-- Number of keys set on the assembled result object (`Object.keys`). -/
def populatedCount (r : DetailEntry) : Nat :=
  (if r.id.isSome then 1 else 0) + (if r.nama.isSome then 1 else 0) +
  (if r.nomor.isSome then 1 else 0) + (if r.jenis.isSome then 1 else 0) +
  (if r.rootWord.isSome then 1 else 0) + (if r.makna.isSome then 1 else 0)

/-- The body of `parseDetailsPage` before the final
`Object.keys(result).length > 0` ternary: rows, `Contoh #` headers, title
root-word fallback, compound-word fix. -/
def assembleDetails (doc : Doc) : Except String DetailEntry :=
  let r0 := doc.rows.foldl applyRow emptyDetail
  match applyH4s r0 (doc.contohH4s.filter (fun s => jsStartsWith (jsTrim s.text) "Contoh #")) with
  | .error e => .error e
  | .ok r1 =>
    let r2 := if rootWordFalsy r1 then
        match doc.titleRootword with
        | some link => {r1 with rootWord := some (titleRootText link)}
        | none => r1
      else r1
    compoundFix doc r2

/-- `parseDetailsPage`: the assembled record when it has at least one key,
else null. -/
def parseDetailsPage (doc : Doc) : Except String (Option DetailEntry) :=
  match assembleDetails doc with
  | .error e => .error e
  | .ok r => .ok (if 0 < populatedCount r then some r else none)

/-! ### `parseEntries` and the orchestrator -/

/-- The three return shapes of `parseEntries`: the not-found branch carries a
`mirip` key, the other two only `entries` (of the two element shapes). -/
inductive ParseOutcome
  | notFound (mirip : List String)
  | detail (entries : List DetailEntry)
  | search (entries : List Entry)
deriving DecidableEq

/-- `parseEntries`: with zero headings and the not-found marker, suggestions;
then the `Detail Data` check; else one `parseEntryDirectly` per heading. -/
def parseEntries (doc : Doc) : Except String ParseOutcome :=
  if doc.entryHeadings = [] ∧ doc.hasNotFoundMsg = true then .ok (.notFound (parseMirip doc))
  else if doc.isDetailsPage = true then
    match parseDetailsPage doc with
    | .error e => .error e
    | .ok o => .ok (.detail o.toList)
  else .ok (.search (doc.entryHeadings.filterMap (parseEntryDirectly doc)))

/-- The transport collaborator of one `scrapeWord`/`lookup` run: the search
page's HTML (parsed; `none` = `navigateTo` returned no HTML), the detail
page keyed by entry id, the `checkCloudflare` flag, the headless option. -/
structure ScrapeEnv where
  searchHtml : Option Doc
  detailHtml : String → Option Doc
  challenge : Bool
  headless : Bool

structure ScrapeWordResult where
  word : String
  authenticated : Bool
  entries : List MergedEntry
  mirip : List String
deriving DecidableEq

structure LookupResult where
  word : String
  authenticated : Bool
  parsed : ParseOutcome
deriving DecidableEq

/-- A stub pushed through phase 2 untouched (`{...entry, ...null}` and the
plain `push(entry)` both give the stub's four keys back). -/
def stubEntry (s : Stub) : MergedEntry := ⟨s.nama, s.nomor, s.id, s.rootWord, none, none⟩

/-- `{...entry, ...details}`: a key present on `details` wins; a key absent
from `details` keeps the stub's value; detail-only keys come over as-is. -/
def mergeEntry (s : Stub) : Option DetailEntry → MergedEntry
  | none => stubEntry s
  | some d =>
    { nama := d.nama.getD s.nama
      nomor := d.nomor.getD s.nomor
      id := d.id.getD s.id
      rootWord := match d.rootWord with
        | some v => some v
        | none => s.rootWord
      jenis := d.jenis
      makna := d.makna }

/-- Phase 1 of `scrapeWord`: one `parseEntry` per heading, nulls dropped. -/
def stubsOf (doc : Doc) : List Stub := doc.entryHeadings.filterMap (parseEntry doc)

/-- Phase 2 loop of `scrapeWord`: falsy-id entries are skipped; a failed
fetch pushes the stub; a parse exception propagates; otherwise the merge is
pushed. -/
def detailLoop (env : ScrapeEnv) : List Stub → List MergedEntry → Except String (List MergedEntry)
  | [], acc => .ok acc
  | s :: rest, acc =>
    if s.id = "" then detailLoop env rest acc
    else
      match env.detailHtml s.id with
      | some d =>
        match parseDetailsPage d with
        | .error e => .error e
        | .ok details => detailLoop env rest (acc ++ [mergeEntry s details])
      | none => detailLoop env rest (acc ++ [stubEntry s])

/-- `KBBIScraper.scrapeWord`: no word / no HTML / challenge-in-headless all
throw; with zero stubs the result is returned after phase 1 (with `mirip`);
else phase 2 runs and the result carries the detailed entries and `mirip`. -/
def scrapeWord (env : ScrapeEnv) (word : String) : Except String ScrapeWordResult :=
  if word = "" then .error "No word provided"
  else
    match env.searchHtml with
    | none => .error "Failed to fetch page content"
    | some doc =>
      if env.challenge = true ∧ env.headless = true then
        .error "Cloudflare challenge detected in headless mode"
      else if stubsOf doc = [] then
        .ok ⟨word, checkAuthentication doc, [], parseMirip doc⟩
      else
        match detailLoop env (stubsOf doc) [] with
        | .error e => .error e
        | .ok detailed => .ok ⟨word, checkAuthentication doc, detailed, parseMirip doc⟩

/-- `KBBI.lookup`: same guards, then `parseEntries` over the search page. -/
def lookup (env : ScrapeEnv) (word : String) : Except String LookupResult :=
  if word = "" then .error "No word provided"
  else
    match env.searchHtml with
    | none => .error "Failed to fetch page content"
    | some doc =>
      if env.challenge = true ∧ env.headless = true then .error "CloudflareBlockError"
      else
        match parseEntries doc with
        | .error e => .error e
        | .ok outcome => .ok ⟨word, checkAuthentication doc, outcome⟩

/-- The `mirip` key of a `parseEntries` result object. -/
def ParseOutcome.miripField : ParseOutcome → Option (List String)
  | .notFound m => some m
  | _ => none

/-- The length of the `entries` array of a `parseEntries` result object. -/
def ParseOutcome.entriesCount : ParseOutcome → Nat
  | .notFound _ => 0
  | .detail l => l.length
  | .search l => l.length

/-- The detail data the phase-2 loop merges for one stub: `none` when the
fetch fails or the parse returns null (exceptions are handled separately). -/
def detailFor (env : ScrapeEnv) (s : Stub) : Option DetailEntry :=
  match env.detailHtml s.id with
  | none => none
  | some d =>
    match parseDetailsPage d with
    | .ok o => o
    | .error _ => none

def isOkE : Except String α → Bool
  | .ok _ => true
  | .error _ => false

/-! ### Helper lemmas -/

theorem mem_updateLast {f : α → α} : ∀ {l : List α} {x : α},
    x ∈ updateLast f l → x ∈ l ∨ ∃ y ∈ l, x = f y := by
  intro l
  induction l with
  | nil => intro x hx; simp [updateLast] at hx
  | cons a rest ih =>
    intro x hx
    cases rest with
    | nil =>
      simp [updateLast] at hx
      exact Or.inr ⟨a, by simp, hx⟩
    | cons b rest2 =>
      simp only [updateLast, List.mem_cons] at hx
      rcases hx with h | h
      · exact Or.inl (by simp [h])
      · rcases ih h with h2 | ⟨y, hy, hxy⟩
        · exact Or.inl (List.mem_cons_of_mem _ h2)
        · exact Or.inr ⟨y, List.mem_cons_of_mem _ hy, hxy⟩

theorem mem_updateAt {f : α → α} : ∀ {n : Nat} {l : List α} {x : α},
    x ∈ updateAt f n l → x ∈ l ∨ ∃ y ∈ l, x = f y := by
  intro n l
  induction l generalizing n with
  | nil => intro x hx; simp [updateAt] at hx
  | cons a rest ih =>
    intro x hx
    cases n with
    | zero =>
      simp only [updateAt, List.mem_cons] at hx
      rcases hx with h | h
      · exact Or.inr ⟨a, by simp, h⟩
      · exact Or.inl (List.mem_cons_of_mem _ h)
    | succ k =>
      simp only [updateAt, List.mem_cons] at hx
      rcases hx with h | h
      · exact Or.inl (by simp [h])
      · rcases ih h with h2 | ⟨y, hy, hxy⟩
        · exact Or.inl (List.mem_cons_of_mem _ h2)
        · exact Or.inr ⟨y, List.mem_cons_of_mem _ hy, hxy⟩

theorem orSentinel_ne (d : String) : orSentinel d ≠ "" := by
  unfold orSentinel
  split_ifs with h
  · intro hc; exact absurd hc (by decide)
  · exact h

theorem extractDefinition_ne (li : Li) : extractDefinition li ≠ "" := by
  unfold extractDefinition
  exact orSentinel_ne _

theorem listItemMeaning_eq (p : Nat × Li)
    (hm : jsIncludes (liText p.2) "Usulkan makna baru" = false) :
    listItemMeaning p = some ⟨some (.str (natToStr (p.1 + 1))), extractWordClasses p.2,
      extractDefinition p.2, extractExamples p.2, none⟩ := by
  unfold listItemMeaning
  simp [hm, extractDefinition_ne p.2]

theorem listItemMeaning_none (p : Nat × Li)
    (hm : jsIncludes (liText p.2) "Usulkan makna baru" = true) :
    listItemMeaning p = none := by
  unfold listItemMeaning
  simp [hm]

theorem listItemMeaning_def_ne {p : Nat × Li} {m : Meaning}
    (h : listItemMeaning p = some m) : m.definisi ≠ "" := by
  rcases hb : jsIncludes (liText p.2) "Usulkan makna baru" with _ | _
  · rw [listItemMeaning_eq p hb] at h
    cases h
    exact extractDefinition_ne p.2
  · rw [listItemMeaning_none p hb] at h
    cases h

theorem compoundItemMeaning_def_ne {p : Nat × Li} {m : Meaning}
    (h : compoundItemMeaning p = some m) : m.definisi ≠ "" := by
  simp only [compoundItemMeaning] at h
  split_ifs at h with h1 h2
  · cases h
    exact h2

theorem compoundItemMeaning_nomor {p : Nat × Li} {m : Meaning}
    (h : compoundItemMeaning p = some m) : m.nomor = some (.num (p.1 + 1)) := by
  simp only [compoundItemMeaning] at h
  split_ifs at h with h1 h2
  · cases h
    rfl

theorem listItemMeanings_def_ne {items : List Li} {m : Meaning}
    (h : m ∈ listItemMeanings items) : m.definisi ≠ "" := by
  unfold listItemMeanings at h
  rcases List.mem_filterMap.1 h with ⟨p, _, hp⟩
  exact listItemMeaning_def_ne hp

theorem compoundListMs_def_ne {h : Heading} {m : Meaning}
    (hm : m ∈ compoundListMs h) : m.definisi ≠ "" := by
  unfold compoundListMs at hm
  cases ho : compoundOlItems h with
  | none => rw [ho] at hm; cases hm
  | some items =>
    rw [ho] at hm
    rcases List.mem_filterMap.1 hm with ⟨p, _, hp⟩
    exact compoundItemMeaning_def_ne hp

theorem paraStep_pres {P : Meaning → Prop}
    (hP : ∀ (n : Nat) (t : String), jsTrim t ≠ "" →
      P ⟨some (.num n), [], jsTrim t, [], some false⟩) :
    ∀ (ts : List String) (acc : List Meaning), (∀ m ∈ acc, P m) →
      ∀ m ∈ ts.foldl paraStep acc, P m := by
  intro ts
  induction ts with
  | nil => intro acc hacc m hm; exact hacc m hm
  | cons t rest ih =>
    intro acc hacc m hm
    refine ih (paraStep acc t) ?_ m hm
    intro m2 hm2
    simp only [paraStep] at hm2
    split_ifs at hm2 with hc
    · rcases List.mem_append.1 hm2 with h1 | h2
      · exact hacc m2 h1
      · simp only [List.mem_singleton] at h2
        subst h2
        exact hP (acc.length + 1) t hc.1
    · exact hacc m2 hm2

theorem textNodeMeanings_pres {P : Meaning → Prop}
    (hP : ∀ (n : Nat) (t : String), jsTrim t ≠ "" →
      P ⟨some (.num n), [], jsTrim t, [], some false⟩) :
    ∀ (ns : List SibNode) (acc : List Meaning), (∀ m ∈ acc, P m) →
      ∀ m ∈ textNodeMeanings acc ns, P m := by
  intro ns
  induction ns with
  | nil => intro acc hacc m hm; exact hacc m hm
  | cons n rest ih =>
    intro acc hacc m hm
    cases n with
    | h2El => exact hacc m hm
    | otherEl => exact ih acc hacc m hm
    | textNode t =>
      simp only [textNodeMeanings] at hm
      split_ifs at hm with hc
      · refine ih _ ?_ m hm
        intro m2 hm2
        rcases List.mem_append.1 hm2 with h1 | h2
        · exact hacc m2 h1
        · simp only [List.mem_singleton] at h2
          subst h2
          exact hP (acc.length + 1) t hc.1
      · exact ih acc hacc m hm

theorem extractCompoundWordMeanings_def_ne (h : Heading) :
    ∀ m ∈ extractCompoundWordMeanings h, m.definisi ≠ "" := by
  intro m hm
  unfold extractCompoundWordMeanings at hm
  split_ifs at hm with h1 h2
  · exact compoundListMs_def_ne hm
  · exact @paraStep_pres (fun m => m.definisi ≠ "") (fun n t hne => hne) h.containerParas []
      (by intro m2 hm2; cases hm2) m hm
  · exact @textNodeMeanings_pres (fun m => m.definisi ≠ "") (fun n t hne => hne) h.rawSiblings []
      (by intro m2 hm2; cases hm2) m hm

/-- Every meaning on the (optional) `makna` list has a nonempty definition. -/
def MaknaDefsOK (r : DetailEntry) : Prop :=
  ∀ l, r.makna = some l → ∀ m ∈ l, m.definisi ≠ ""

theorem emptyDetail_ok : MaknaDefsOK emptyDetail := by
  intro l hl
  cases hl

/-- How one row can change `makna`: not at all, by appending a meaning with a
nonempty definition, or by rewriting the last meaning's classes/examples. -/
theorem applyRow_makna (r : DetailEntry) (row : Row) :
    (applyRow r row).makna = r.makna ∨
    (∃ v, v ≠ "" ∧
      (applyRow r row).makna = some ((r.makna.getD []) ++ [⟨none, [], v, [], none⟩])) ∨
    (∃ l0 f, r.makna = some l0 ∧ (applyRow r row).makna = some (updateLast f l0) ∧
      ∀ m, (f m).definisi = m.definisi) := by
  simp only [applyRow]
  by_cases h1 : jsTrim row.value = "" ∨ jsTrim row.value = "(Tidak tersedia)"
  · rw [if_pos h1]; exact Or.inl rfl
  rw [if_neg h1]
  by_cases h2 : jsTrim row.label = "Eid"
  · rw [if_pos h2]; exact Or.inl rfl
  rw [if_neg h2]
  by_cases h3 : jsTrim row.label = "Entri"
  · rw [if_pos h3]; exact Or.inl rfl
  rw [if_neg h3]
  by_cases h4 : jsTrim row.label = "Id Homonim"
  · rw [if_pos h4]; exact Or.inl rfl
  rw [if_neg h4]
  by_cases h5 : jsTrim row.label = "Jenis Entri"
  · rw [if_pos h5]; exact Or.inl rfl
  rw [if_neg h5]
  by_cases h6 : jsTrim row.label = "Induk Kata"
  · rw [if_pos h6]; exact Or.inl rfl
  rw [if_neg h6]
  by_cases h7 : jsTrim row.label = "Makna"
  · rw [if_pos h7]
    exact Or.inr (Or.inl ⟨jsTrim row.value, fun hc => h1 (Or.inl hc), rfl⟩)
  rw [if_neg h7]
  by_cases h8 : jsTrim row.label = "Kelas Kata"
  · rw [if_pos h8]
    cases hr : r.makna with
    | none => exact Or.inl hr
    | some l0 =>
      dsimp only
      by_cases hne : l0 ≠ []
      · rw [if_pos hne]
        exact Or.inr (Or.inr ⟨l0, _, rfl, rfl, fun m => rfl⟩)
      · rw [if_neg hne]
        exact Or.inl hr
  rw [if_neg h8]
  by_cases h9 : jsTrim row.label = "Contoh"
  · rw [if_pos h9]
    cases hr : r.makna with
    | none => exact Or.inl hr
    | some l0 =>
      dsimp only
      by_cases hne : l0 ≠ []
      · rw [if_pos hne]
        exact Or.inr (Or.inr ⟨l0, _, rfl, rfl, fun m => rfl⟩)
      · rw [if_neg hne]
        exact Or.inl hr
  rw [if_neg h9]
  exact Or.inl rfl

theorem applyRow_pres {r : DetailEntry} (row : Row) (h : MaknaDefsOK r) :
    MaknaDefsOK (applyRow r row) := by
  intro l hl m hm
  rcases applyRow_makna r row with hc | ⟨v, hv, hc⟩ | ⟨l0, f, hr0, hc, hf⟩
  · rw [hc] at hl
    exact h l hl m hm
  · rw [hc] at hl
    injection hl with h2
    subst h2
    rcases List.mem_append.1 hm with hm1 | hm2
    · cases hr2 : r.makna with
      | none => rw [hr2] at hm1; cases hm1
      | some l1 =>
        rw [hr2] at hm1
        exact h l1 hr2 m hm1
    · simp only [List.mem_singleton] at hm2
      subst hm2
      exact hv
  · rw [hc] at hl
    injection hl with h2
    subst h2
    rcases mem_updateLast hm with hm1 | ⟨y, hy, hxy⟩
    · exact h l0 hr0 m hm1
    · subst hxy
      rw [hf y]
      exact h l0 hr0 y hy

theorem rowsFold_pres : ∀ (rows : List Row) (r : DetailEntry),
    MaknaDefsOK r → MaknaDefsOK (rows.foldl applyRow r) := by
  intro rows
  induction rows with
  | nil => intro r h; exact h
  | cons row rest ih => intro r h; exact ih (applyRow r row) (applyRow_pres row h)

theorem h4UpdateMeaning_def (cleaned : String) (eNum : Nat) (m : Meaning) :
    (h4UpdateMeaning cleaned eNum m).definisi = m.definisi := by
  unfold h4UpdateMeaning
  cases hidx : m.contoh.findIdx? (fun ex => ex.nomor = eNum) with
  | none => rfl
  | some idx => rfl

theorem applyH4_pres {r : DetailEntry} {sec : H4Sec} {r2 : DetailEntry}
    (he : applyH4 r sec = .ok r2) (h : MaknaDefsOK r) : MaknaDefsOK r2 := by
  simp only [applyH4] at he
  cases hmc : matchContoh sec.text with
  | none =>
    simp only [hmc] at he
    injection he with h2
    subst h2
    exact h
  | some pr =>
    simp only [hmc] at he
    obtain ⟨mNum, eNum⟩ := pr
    cases hmk : r.makna with
    | none =>
      simp only [hmk] at he
      injection he with h2
      subst h2
      exact h
    | some l0 =>
      simp only [hmk] at he
      by_cases hA : l0.length < mNum
      · rw [if_pos hA] at he
        injection he with h2
        subst h2
        exact h
      rw [if_neg hA] at he
      by_cases hB : mNum = 0
      · rw [if_pos hB] at he
        exact Except.noConfusion he
      rw [if_neg hB] at he
      by_cases hC : h4ExampleText sec ≠ "" ∧ h4ExampleText sec ≠ "(Tidak tersedia)"
      · rw [if_pos hC] at he
        injection he with h2
        subst h2
        intro l hl m hm
        injection hl with h3
        subst h3
        rcases mem_updateAt hm with hm1 | ⟨y, hy, hxy⟩
        · exact h l0 hmk m hm1
        · subst hxy
          rw [h4UpdateMeaning_def]
          exact h l0 hmk y hy
      · rw [if_neg hC] at he
        injection he with h2
        subst h2
        exact h

theorem applyH4s_pres : ∀ (secs : List H4Sec) {r r2 : DetailEntry},
    applyH4s r secs = .ok r2 → MaknaDefsOK r → MaknaDefsOK r2 := by
  intro secs
  induction secs with
  | nil =>
    intro r r2 he h
    simp only [applyH4s] at he
    injection he with h2
    subst h2
    exact h
  | cons s rest ih =>
    intro r r2 he h
    simp only [applyH4s] at he
    cases ha : applyH4 r s with
    | error e =>
      simp only [ha] at he
      exact Except.noConfusion he
    | ok rmid =>
      simp only [ha] at he
      exact ih he (applyH4_pres ha h)

theorem compoundFix_pres {doc : Doc} {r r2 : DetailEntry}
    (he : compoundFix doc r = .ok r2) (h : MaknaDefsOK r) : MaknaDefsOK r2 := by
  simp only [compoundFix] at he
  cases hn : r.nama with
  | none =>
    simp only [hn] at he
    injection he with h2
    subst h2
    exact h
  | some nm =>
    simp only [hn] at he
    split_ifs at he with hc
    · cases hf : doc.firstH2 with
      | some hh =>
        simp only [hf] at he
        injection he with h2
        subst h2
        split_ifs with hcm
        · intro l hl m hm
          injection hl with h3
          subst h3
          exact extractCompoundWordMeanings_def_ne hh m hm
        · exact h
      | none =>
        simp only [hf] at he
        exact Except.noConfusion he
    · injection he with h2
      subst h2
      exact h

theorem assembleDetails_pres {doc : Doc} {r : DetailEntry}
    (he : assembleDetails doc = .ok r) : MaknaDefsOK r := by
  simp only [assembleDetails] at he
  cases hh4 : applyH4s (doc.rows.foldl applyRow emptyDetail)
      (doc.contohH4s.filter (fun s => jsStartsWith (jsTrim s.text) "Contoh #")) with
  | error e =>
    simp only [hh4] at he
    exact Except.noConfusion he
  | ok r1 =>
    simp only [hh4] at he
    have h1 : MaknaDefsOK r1 :=
      applyH4s_pres _ hh4 (rowsFold_pres doc.rows emptyDetail emptyDetail_ok)
    have h2 : MaknaDefsOK (if rootWordFalsy r1 = true then
        match doc.titleRootword with
        | some link => {r1 with rootWord := some (titleRootText link)}
        | none => r1
      else r1) := by
      split_ifs with hr
      · cases tl : doc.titleRootword with
        | some link =>
          simp only [tl]
          intro l hl m hm
          exact h1 l hl m hm
        | none => simp only [tl]; exact h1
      · exact h1
    exact compoundFix_pres he h2

theorem listNumbered : ∀ (items : List Li) (k : Nat),
    ((enumFrom k items).filterMap listItemMeaning).map Meaning.nomor =
    ((enumFrom k items).filter
      (fun p => !(jsIncludes (liText p.2) "Usulkan makna baru"))).map
      (fun p => some (NomorV.str (natToStr (p.1 + 1)))) := by
  intro items
  induction items with
  | nil => intro k; rfl
  | cons li rest ih =>
    intro k
    cases hb : jsIncludes (liText li) "Usulkan makna baru" with
    | true =>
      have h1 : listItemMeaning (k, li) = none := listItemMeaning_none (k, li) hb
      simp only [enumFrom, List.filterMap_cons, List.filter_cons, h1, hb]
      simpa using ih (k + 1)
    | false =>
      have h1 := listItemMeaning_eq (k, li) hb
      simp only [enumFrom, List.filterMap_cons, List.filter_cons, h1, hb]
      simp only [Bool.not_false, if_true, List.map_cons]
      rw [ih (k + 1)]

theorem parseEntry_id_ne {doc : Doc} {h : Heading} {s : Stub}
    (hp : parseEntry doc h = some s) : s.id ≠ "" := by
  simp only [parseEntry] at hp
  cases hid : extractId h with
  | none =>
    simp only [hid] at hp
    exact Option.noConfusion hp
  | some i =>
    simp only [hid] at hp
    split_ifs at hp with hz
    injection hp with h2
    subst h2
    exact hz

theorem stubsOf_id_ne {doc : Doc} : ∀ s ∈ stubsOf doc, s.id ≠ "" := by
  intro s hs
  rcases List.mem_filterMap.1 hs with ⟨h, _, hp⟩
  exact parseEntry_id_ne hp

theorem detailLoop_eq (env : ScrapeEnv) : ∀ (stubs : List Stub) (acc : List MergedEntry),
    (∀ s ∈ stubs, s.id ≠ "") →
    (∀ s ∈ stubs, ∀ d, env.detailHtml s.id = some d → isOkE (parseDetailsPage d) = true) →
    detailLoop env stubs acc =
      .ok (acc ++ stubs.map (fun s => mergeEntry s (detailFor env s))) := by
  intro stubs
  induction stubs with
  | nil => intro acc _ _; simp [detailLoop]
  | cons s rest ih =>
    intro acc hid hcr
    simp only [detailLoop]
    rw [if_neg (hid s (by simp))]
    cases hd : env.detailHtml s.id with
    | none =>
      simp only [hd]
      rw [ih (acc ++ [stubEntry s]) (fun x hx => hid x (List.mem_cons_of_mem _ hx))
        (fun x hx => hcr x (List.mem_cons_of_mem _ hx))]
      have hdf : detailFor env s = none := by simp [detailFor, hd]
      rw [List.map_cons, hdf]
      simp only [List.append_assoc, List.singleton_append]
      rfl
    | some d =>
      simp only [hd]
      have hok := hcr s (by simp) d hd
      cases hp : parseDetailsPage d with
      | error e => rw [hp] at hok; simp [isOkE] at hok
      | ok o =>
        simp only [hp]
        rw [ih (acc ++ [mergeEntry s o]) (fun x hx => hid x (List.mem_cons_of_mem _ hx))
          (fun x hx => hcr x (List.mem_cons_of_mem _ hx))]
        have hdf : detailFor env s = o := by simp [detailFor, hd, hp]
        rw [List.map_cons, hdf]
        simp [List.append_assoc]

/-! ### C9 helper lemmas -/

/-- A list item none of whose red elements carries a `span[title]`. -/
def noTitledSpans (li : Li) : Bool := li.segs.all (fun s => (redSpans s).isEmpty)

theorem m1Fold_eq : ∀ (segs : List Seg) (acc : List WordClass),
    (∀ s ∈ segs, redSpans s = []) →
    segs.foldl (fun acc s => acc ++ wcFromSpans (redSpans s)) acc = acc := by
  intro segs
  induction segs with
  | nil => intro acc _; rfl
  | cons s rest ih =>
    intro acc hsp
    have h0 : redSpans s = [] := hsp s (by simp)
    simp only [List.foldl_cons, h0]
    have : acc ++ wcFromSpans [] = acc := by simp [wcFromSpans]
    rw [this]
    exact ih acc (fun x hx => hsp x (List.mem_cons_of_mem _ hx))

theorem method2Token_mapped {part : String} {wc : WordClass}
    (h : method2Token [] part = some wc) : wc.nama = mapWordClassCode wc.kode := by
  simp only [method2Token] at h
  split_ifs at h with hc
  injection h with h2
  subst h2
  rfl

theorem method2Fold_mem : ∀ (segs : List Seg) (acc : List WordClass),
    (∀ s ∈ segs, redSpans s = []) →
    (∀ wc ∈ acc, wc.nama = mapWordClassCode wc.kode) →
    ∀ wc ∈ segs.foldl wcMethod2Step acc, wc.nama = mapWordClassCode wc.kode := by
  intro segs
  induction segs with
  | nil => intro acc _ hacc wc hwc; exact hacc wc hwc
  | cons s rest ih =>
    intro acc hsp hacc wc hwc
    simp only [List.foldl_cons] at hwc
    refine ih (wcMethod2Step acc s) (fun x hx => hsp x (List.mem_cons_of_mem _ hx)) ?_ wc hwc
    intro wc2 hwc2
    cases s with
    | red t spans =>
      have hsp0 : spans = [] := hsp (.red t spans) (by simp)
      subst hsp0
      simp only [wcMethod2Step] at hwc2
      split_ifs at hwc2 with hft
      · rcases List.mem_append.1 hwc2 with h1 | h2
        · exact hacc wc2 h1
        · rcases List.mem_filterMap.1 h2 with ⟨part, _, hp⟩
          exact method2Token_mapped hp
      · exact hacc wc2 hwc2
    | plain t => exact hacc wc2 hwc2
    | grey t => exact hacc wc2 hwc2
    | button t => exact hacc wc2 hwc2
    | italic t => exact hacc wc2 hwc2

/-! ### Concrete fixtures -/

def docBase : Doc := ⟨[], false, false, [], [], none, none, [], none, [], [], false, false⟩

def hBase : Heading := ⟨[], "", [], none, none, none, none, none, [], [], [], [], [], [], []⟩

/-! ### Claims -/

/-- C1 (amended): in `scrapeWord`, when a word is given, the search fetch
yields HTML, no challenge is hit in headless mode and no detail-page parse
itself throws, the operation succeeds with exactly one result item per stub,
and every stub whose detail fetch returned no HTML or whose detail parse
returned null sits in the result unmodified. -/
theorem c1_amended (env : ScrapeEnv) (word : String) (doc : Doc)
    (hw : word ≠ "") (hs : env.searchHtml = some doc)
    (hc : ¬(env.challenge = true ∧ env.headless = true))
    (hcr : ∀ s ∈ stubsOf doc, ∀ d, env.detailHtml s.id = some d →
      isOkE (parseDetailsPage d) = true) :
    ∃ r, scrapeWord env word = Except.ok r ∧
      r.entries.length = (stubsOf doc).length ∧
      (∀ i s, (stubsOf doc).get? i = some s →
        (env.detailHtml s.id = none ∨
          (∃ d, env.detailHtml s.id = some d ∧ parseDetailsPage d = Except.ok none)) →
        r.entries.get? i = some (stubEntry s)) := by
  by_cases hst : stubsOf doc = []
  · refine ⟨⟨word, checkAuthentication doc, [], parseMirip doc⟩, ?_, ?_, ?_⟩
    · simp [scrapeWord, hw, hs, hc, hst]
    · simp [hst]
    · intro i s hgs _
      rw [hst] at hgs
      simp at hgs
  · have hloop := detailLoop_eq env (stubsOf doc) [] stubsOf_id_ne hcr
    refine ⟨⟨word, checkAuthentication doc,
      (stubsOf doc).map (fun s => mergeEntry s (detailFor env s)), parseMirip doc⟩, ?_, ?_, ?_⟩
    · simp [scrapeWord, hw, hs, hc, hst, hloop]
    · simp
    · intro i s hgs hfail
      have hdf : detailFor env s = none := by
        rcases hfail with h1 | ⟨d, h2, h3⟩
        · simp [detailFor, h1]
        · simp [detailFor, h2, h3]
      show ((stubsOf doc).map (fun s => mergeEntry s (detailFor env s))).get? i = some (stubEntry s)
      rw [List.get?_map, hgs]
      simp [hdf]
      rfl

def envC1x : ScrapeEnv := ⟨some docBase, fun _ => none, true, true⟩

/-- C1 counterexample: the search fetch yields HTML, yet the whole operation
throws, because a Cloudflare challenge is detected in headless mode; so
"throws only when the initial search-page fetch yields no HTML" is false. -/
theorem c1_counterexample :
    envC1x.searchHtml.isSome = true ∧
    scrapeWord envC1x "kata" = Except.error "Cloudflare challenge detected in headless mode" :=
  ⟨rfl, rfl⟩

def hC1w : Heading := { hBase with ownText := "kata", editHref := some "Edit?eid=7" }

def docC1w : Doc := { docBase with entryHeadings := [hC1w] }

def envC1w : ScrapeEnv := ⟨some docC1w, fun _ => none, false, true⟩

/-- Witness for C1 at a one-stub document whose detail fetch fails. -/
theorem c1_witness :
    ∃ r, scrapeWord envC1w "kata" = Except.ok r ∧
      r.entries.length = (stubsOf docC1w).length ∧
      (∀ i s, (stubsOf docC1w).get? i = some s →
        (envC1w.detailHtml s.id = none ∨
          (∃ d, envC1w.detailHtml s.id = some d ∧ parseDetailsPage d = Except.ok none)) →
        r.entries.get? i = some (stubEntry s)) :=
  c1_amended envC1w "kata" docC1w (by decide) rfl (by simp [envC1x, envC1w])
    (by intro s _ d hd; exact Option.noConfusion hd)

/-- C2 (amended): `parseEntries` classifies NotFound (zero headings plus the
not-found marker) BEFORE the `Detail Data` check; only when the NotFound test
fails does the detail marker select the detail-page path, and otherwise every
heading goes through `parseEntryDirectly`. -/
theorem c2_amended (doc : Doc) :
    ((doc.entryHeadings = [] ∧ doc.hasNotFoundMsg = true) →
      parseEntries doc = .ok (.notFound (parseMirip doc))) ∧
    (¬(doc.entryHeadings = [] ∧ doc.hasNotFoundMsg = true) → doc.isDetailsPage = true →
      parseEntries doc = Except.map (fun o => ParseOutcome.detail o.toList) (parseDetailsPage doc)) ∧
    (¬(doc.entryHeadings = [] ∧ doc.hasNotFoundMsg = true) → doc.isDetailsPage = false →
      parseEntries doc = .ok (.search (doc.entryHeadings.filterMap (parseEntryDirectly doc)))) := by
  refine ⟨?_, ?_, ?_⟩
  · intro h
    simp [parseEntries, h]
  · intro h1 h2
    simp only [parseEntries, if_neg h1, h2, if_true]
    cases hp : parseDetailsPage doc with
    | error e => simp [Except.map]
    | ok o => simp [Except.map]
  · intro h1 h2
    simp [parseEntries, h1, h2]

def docC2x : Doc := { docBase with hasNotFoundMsg := true, isDetailsPage := true }

/-- C2 counterexample: a document carrying the `Detail Data` marker, zero
headings and the not-found marker is classified NotFound, not EntryDetail. -/
theorem c2_counterexample :
    docC2x.isDetailsPage = true ∧
    parseEntries docC2x = Except.ok (ParseOutcome.notFound []) ∧
    parseEntries docC2x ≠ Except.ok (ParseOutcome.detail []) :=
  ⟨rfl, rfl, by decide⟩

def docC2w : Doc := { docBase with isDetailsPage := true, rows := [⟨"Entri", "kata"⟩] }

/-- Witness for C2 at a details-page document without the not-found marker. -/
theorem c2_witness :
    parseEntries docC2w = Except.map (fun o => ParseOutcome.detail o.toList) (parseDetailsPage docC2w) :=
  (c2_amended docC2w).2.1 (by decide) rfl

/-- C3: the merge law of `{...entry, ...details}`: every field present on the
detail entry wins, every field absent from it keeps the stub's value, and
merging a null detail returns the stub's fields unchanged. -/
theorem c3_merge_law (s : Stub) (d : DetailEntry) :
    (mergeEntry s (some d)).nama = d.nama.getD s.nama ∧
    (mergeEntry s (some d)).nomor = d.nomor.getD s.nomor ∧
    (mergeEntry s (some d)).id = d.id.getD s.id ∧
    (mergeEntry s (some d)).rootWord = (match d.rootWord with
      | some v => some v
      | none => s.rootWord) ∧
    (mergeEntry s (some d)).jenis = d.jenis ∧
    (mergeEntry s (some d)).makna = d.makna ∧
    mergeEntry s none = stubEntry s :=
  ⟨rfl, rfl, rfl, rfl, rfl, rfl, rfl⟩

/-- C4 (amended): in `lookup`, `mirip` is only present on the NotFound
outcome, which has zero entries; but `scrapeWord` returns the suggestion list
parsed from the search page unconditionally, so its `mirip` can be non-empty
alongside non-empty entries. -/
theorem c4_amended :
    (∀ (env : ScrapeEnv) (word : String) (r : LookupResult), lookup env word = Except.ok r →
      r.parsed.miripField.isSome = true → r.parsed.entriesCount = 0) ∧
    (∀ (env : ScrapeEnv) (word : String) (doc : Doc) (r : ScrapeWordResult),
      env.searchHtml = some doc → scrapeWord env word = Except.ok r →
      r.mirip = parseMirip doc) := by
  constructor
  · intro env word r _ hm
    cases hp : r.parsed with
    | notFound m => rfl
    | detail l => rw [hp] at hm; simp [ParseOutcome.miripField] at hm
    | search l => rw [hp] at hm; simp [ParseOutcome.miripField] at hm
  · intro env word doc r hs hres
    by_cases hw : word = ""
    · simp [scrapeWord, hw] at hres
    · simp only [scrapeWord, if_neg hw, hs] at hres
      by_cases hc : env.challenge = true ∧ env.headless = true
      · rw [if_pos hc] at hres
        exact Except.noConfusion hres
      rw [if_neg hc] at hres
      by_cases hst : stubsOf doc = []
      · rw [if_pos hst] at hres
        injection hres with h2
        rw [← h2]
      · rw [if_neg hst] at hres
        cases hl : detailLoop env (stubsOf doc) [] with
        | error e =>
          rw [hl] at hres
          exact Except.noConfusion hres
        | ok detailed =>
          rw [hl] at hres
          injection hres with h2
          rw [← h2]

def hC4 : Heading := { hBase with ownText := "kata", editHref := some "Edit?eid=3" }

def docC4 : Doc := { docBase with entryHeadings := [hC4], colMd3Texts := ["b"] }

def envC4 : ScrapeEnv := ⟨some docC4, fun _ => none, false, true⟩

def rC4 : ScrapeWordResult := ⟨"kata", false, [⟨"kata", "", "3", none, none, none⟩], ["b"]⟩

/-- C4 counterexample: a `scrapeWord` result with one entry and a non-empty
`mirip` at the same time. -/
theorem c4_counterexample :
    scrapeWord envC4 "kata" = Except.ok rC4 ∧ rC4.entries ≠ [] ∧ rC4.mirip ≠ [] :=
  ⟨rfl, by decide, by decide⟩

/-- Witness for C4: the returned `mirip` is the parsed suggestion list. -/
theorem c4_witness : rC4.mirip = parseMirip docC4 :=
  c4_amended.2 envC4 "kata" docC4 rC4 rfl rfl

/-- C5 (amended): a heading whose extracted entry id is null yields no stub at
all: `parseEntry` returns null, and a document all of whose headings lack ids
contributes zero stubs to the orchestrator. -/
theorem c5_amended :
    (∀ (doc : Doc) (h : Heading), extractId h = none → parseEntry doc h = none) ∧
    (∀ doc : Doc, (∀ h ∈ doc.entryHeadings, extractId h = none) → stubsOf doc = []) := by
  constructor
  · intro doc h hid
    simp [parseEntry, hid]
  · intro doc hall
    unfold stubsOf
    rw [List.filterMap_eq_nil]
    intro h hh
    simp [parseEntry, hall h hh]

def hC5 : Heading := { hBase with ownText := "kata" }

def docC5 : Doc := { docBase with entryHeadings := [hC5] }

def envC5 : ScrapeEnv := ⟨some docC5, fun _ => none, false, true⟩

/-- C5 counterexample: a document with one id-less heading produces an empty
entry list from `scrapeWord` — the null-id stub is dropped, not retained. -/
theorem c5_counterexample :
    docC5.entryHeadings ≠ [] ∧ extractId hC5 = none ∧
    scrapeWord envC5 "kata" = Except.ok ⟨"kata", false, [], []⟩ :=
  ⟨by decide, rfl, rfl⟩

/-- Witness for C5 at the id-less heading. -/
theorem c5_witness :
    parseEntry docC5 hC5 = none ∧ stubsOf docC5 = [] :=
  ⟨c5_amended.1 docC5 hC5 (by decide), c5_amended.2 docC5 (by decide)⟩

/-- C6: when `parseDetailsPage` finishes without throwing, it returns null
exactly when the assembled record has zero populated fields, and never
returns an entry with zero populated fields. -/
theorem c6_details_null_iff (doc : Doc) (r : DetailEntry)
    (h : assembleDetails doc = Except.ok r) :
    (parseDetailsPage doc = Except.ok none ↔ populatedCount r = 0) ∧
    (∀ e, parseDetailsPage doc = Except.ok (some e) → 0 < populatedCount e) := by
  constructor
  · constructor
    · intro he
      simp only [parseDetailsPage, h] at he
      by_cases hp : 0 < populatedCount r
      · rw [if_pos hp] at he
        injection he with h2
        exact Option.noConfusion h2
      · omega
    · intro h0
      simp only [parseDetailsPage, h]
      rw [if_neg (by omega)]
  · intro e he
    simp only [parseDetailsPage, h] at he
    by_cases hp : 0 < populatedCount r
    · rw [if_pos hp] at he
      injection he with h2
      injection h2 with h3
      rw [← h3]
      exact hp
    · rw [if_neg hp] at he
      injection he with h2
      exact Option.noConfusion h2

def docC6 : Doc := { docBase with rows := [⟨"Entri", "kata"⟩] }

def rC6 : DetailEntry := ⟨none, some "kata", none, none, none, none⟩

/-- Witness for C6 at a details page with a single `Entri` row. -/
theorem c6_witness :
    (parseDetailsPage docC6 = Except.ok none ↔ populatedCount rC6 = 0) ∧
    (∀ e, parseDetailsPage docC6 = Except.ok (some e) → 0 < populatedCount e) :=
  c6_details_null_iff docC6 rC6 rfl

/-- C7 (amended): in the list paths the `nomor` of a produced Meaning is the
string of the item's child index + 1 (skipped marker items still advance the
numbering), and in the compound path it is the numeric child index + 1, not a
string. -/
theorem c7_amended :
    (∀ items : List Li,
      (listItemMeanings items).map Meaning.nomor =
      ((enumFrom 0 items).filter
        (fun p => !(jsIncludes (liText p.2) "Usulkan makna baru"))).map
        (fun p => some (NomorV.str (natToStr (p.1 + 1))))) ∧
    (∀ (p : Nat × Li) (m : Meaning), compoundItemMeaning p = some m →
      m.nomor = some (NomorV.num (p.1 + 1))) :=
  ⟨fun items => listNumbered items 0, fun _ _ h => compoundItemMeaning_nomor h⟩

def liU7 : Li := ⟨[.plain "Usulkan makna baru untuk entri"]⟩

def liB7 : Li := ⟨[.plain "besar"]⟩

/-- C7 counterexample: with the marker item first, the single retained item is
numbered "2" (and numeric 2 in the compound path), not "1". -/
theorem c7_counterexample :
    (listItemMeanings [liU7, liB7]).map Meaning.nomor = [some (NomorV.str "2")] ∧
    ((enumFrom 0 [liU7, liB7]).filterMap compoundItemMeaning).map Meaning.nomor =
      [some (NomorV.num 2)] ∧
    (listItemMeanings [liU7, liB7]).length = 1 :=
  ⟨rfl, rfl, rfl⟩

def mB7 : Meaning := ⟨some (.num 2), [], "besar", [], some false⟩

/-- Witness for C7 at the second list item. -/
theorem c7_witness :
    compoundItemMeaning (1, liB7) = some mB7 ∧ mB7.nomor = some (NomorV.num 2) :=
  ⟨rfl, c7_amended.2 (1, liB7) mB7 rfl⟩

/-- C8 (amended): `definisi` is never the empty string on the list paths, the
compound paths and the details-page rows (`extractDefinition` substitutes the
sentinel); the plain-text fallback of `extractMeaningsDirectly` is the
exception shown in the counterexample. -/
theorem c8_amended :
    (∀ li : Li, extractDefinition li ≠ "") ∧
    (∀ (items : List Li) (m : Meaning), m ∈ listItemMeanings items → m.definisi ≠ "") ∧
    (∀ (h : Heading) (m : Meaning), m ∈ extractCompoundWordMeanings h → m.definisi ≠ "") ∧
    (∀ (doc : Doc) (r : DetailEntry) (l : List Meaning) (m : Meaning),
      assembleDetails doc = Except.ok r → r.makna = some l → m ∈ l → m.definisi ≠ "") :=
  ⟨extractDefinition_ne, fun _ _ hm => listItemMeanings_def_ne hm,
   fun h m hm => extractCompoundWordMeanings_def_ne h m hm,
   fun _ _ l m he hl hm => assembleDetails_pres he l hl m hm⟩

def hC8 : Heading := { hBase with contentEls := [.el "n"] }

/-- C8 counterexample: the plain-text fallback on a sibling whose whole text
is the class token `n` strips the token and emits `definisi = ""`. -/
theorem c8_counterexample :
    extractMeaningsDirectly hC8 =
      [⟨some (NomorV.str "1"), [⟨"n", "Nomina"⟩], "", [], none⟩] ∧
    (extractMeaningsDirectly hC8).map Meaning.definisi = [""] :=
  ⟨rfl, rfl⟩

def liW8 : Li := ⟨[.plain "makna"]⟩

def mW8 : Meaning := ⟨some (.str "1"), [], "makna", [], none⟩

/-- Witness for C8 at a one-item meaning list. -/
theorem c8_witness : mW8.definisi ≠ "" :=
  c8_amended.2.1 [liW8] mW8 (by decide)

/-- C9: the word-class extractor is total over codes: with no titled spans in
play, every extracted token becomes `{kode, nama := table lookup}` where the
table returns the empty string for unrecognized codes such as "xyz". -/
theorem c9_wordclass_total :
    (∀ li : Li, noTitledSpans li = true →
      ∀ wc ∈ extractWordClasses li, wc.nama = mapWordClassCode wc.kode) ∧
    mapWordClassCode "xyz" = "" := by
  constructor
  · intro li hn wc hwc
    have hsp : ∀ s ∈ li.segs, redSpans s = [] := by
      intro s hs
      have := (List.all_eq_true.1 hn) s hs
      simpa [List.isEmpty_iff] using this
    have hm1 := m1Fold_eq li.segs [] hsp
    simp only [extractWordClasses, hm1] at hwc
    rw [if_neg (by simp)] at hwc
    exact method2Fold_mem li.segs [] hsp (by intro x hx; cases hx) wc hwc
  · rfl

def liC9 : Li := ⟨[.red "xyz n" []]⟩

/-- Witness for C9 at a red element with an unknown and a known code. -/
theorem c9_witness :
    noTitledSpans liC9 = true ∧
    (∀ wc ∈ extractWordClasses liC9, wc.nama = mapWordClassCode wc.kode) ∧
    extractWordClasses liC9 = [⟨"xyz", ""⟩, ⟨"n", "Nomina"⟩] :=
  ⟨rfl, c9_wordclass_total.1 liC9 rfl, rfl⟩

/-- C10 (amended): a heading whose extracted text is empty after trimming
yields null; every returned Entry's `nama` is the superscript-stripped
extracted text, which is non-empty before stripping but can be empty after it
(see the counterexample). -/
theorem c10_amended (doc : Doc) (h : Heading) :
    (jsTrim (extractText h) = "" → parseEntryDirectly doc h = none) ∧
    (∀ e, parseEntryDirectly doc h = some e →
      e.nama = stripSupers (jsTrim (extractText h)) ∧ jsTrim (extractText h) ≠ "") := by
  constructor
  · intro hne
    simp [parseEntryDirectly, hne]
  · intro e he
    simp only [parseEntryDirectly] at he
    split_ifs at he with hz hms
    · injection he with h2
      rw [← h2]
      exact ⟨rfl, hz⟩
    · injection he with h2
      rw [← h2]
      exact ⟨rfl, hz⟩

def hC10 : Heading := { hBase with ownText := "¹" }

/-- C10 counterexample: a heading whose own text is a bare superscript digit
passes the emptiness check yet ends with `nama = ""`. -/
theorem c10_counterexample :
    extractText hC10 = "¹" ∧
    (parseEntryDirectly docBase hC10).map Entry.nama = some "" :=
  ⟨rfl, rfl⟩

def hC10w : Heading := { hBase with ownText := "kata" }

def eC10w : Entry := ⟨none, "kata", "", [], none, none, none, none⟩

/-- Witness for C10 at a plain heading. -/
theorem c10_witness :
    eC10w.nama = stripSupers (jsTrim (extractText hC10w)) ∧ jsTrim (extractText hC10w) ≠ "" :=
  (c10_amended docBase hC10w).2 eC10w rfl

end Kbbi

